import Mathlib

/-!
Verification of the music-visualizer core (visualizer module and audio
analyzer module) against its natural-language specification.

The JavaScript source is embedded shallowly:

* pure numeric functions over JS numbers become functions over `ℚ` where the
  source uses only field operations, comparisons, `min`/`max` and `floor`
  (all exact), and over `ℝ` where the source uses `Math.exp`, `Math.sqrt`
  or trigonometry;
* the byte frequency data array becomes a `List ℕ`;
* `Math.random()` outputs become explicit parameters;
* per-band mutable state becomes explicit state records, one frame of the
  animation loop becomes one application of a step function.

Definition names follow the source names.
-/

/- ## Signal Shaper (visualizer `applyEmphasis`, `applyCompression`) -/

/-- `applyEmphasis` from the visualizer: multiplier is `emphasis / 50`
(0 = muted, 50 = neutral, 100 = doubled), result capped at 1. -/
def applyEmphasis (amplitude emphasis : ℚ) : ℚ :=
  let multiplier := emphasis / 50
  min 1 (amplitude * multiplier)

/-- `applyCompression` from the visualizer: soft-knee lerp toward the
midpoint 0.5 by `compression / 100 * 0.8`. -/
def applyCompression (amplitude compression : ℚ) : ℚ :=
  let compressionFactor := compression / 100
  amplitude + (0.5 - amplitude) * compressionFactor * 0.8

/- ## Field scale and radius ranges (visualizer `render`) -/

/-- The field-scale radius multiplier computed in `render`:
`0.3 + (fieldScale / 100) * 1.7`. -/
def fieldScaleMultiplier (fieldScale : ℚ) : ℚ :=
  0.3 + fieldScale / 100 * 1.7

/-- `effectiveMinRadius` in `render`: the minimum radius scaled by the
field-scale multiplier. -/
def effectiveMinRadius (minRadius fieldScale : ℚ) : ℚ :=
  minRadius * fieldScaleMultiplier fieldScale

/-- `effectiveMaxRadius` in `render`: the maximum radius (enlarged 1.5x on a
light background) scaled by the field-scale multiplier. -/
def effectiveMaxRadius (maxRadius : ℚ) (isLight : Bool) (fieldScale : ℚ) : ℚ :=
  (if isLight then maxRadius * 1.5 else maxRadius) * fieldScaleMultiplier fieldScale

/- ## Spectrum Sampler (audio analyzer `frequencyToBin`, `getAverageAmplitude`) -/

/-- `frequencyToBin` from the audio analyzer: bin width is
`nyquist / bufferLength` with `nyquist = sampleRate / 2`, and the bin index
is the floor of `frequency / binWidth`. -/
def frequencyToBin (sampleRate : ℚ) (bufferLength : ℕ) (frequency : ℚ) : ℤ :=
  let nyquist := sampleRate / 2
  let binWidth := nyquist / (bufferLength : ℚ)
  ⌊frequency / binWidth⌋

/-- `getAverageAmplitude` from the audio analyzer.  The loop
`for (i = minBin; i <= maxBin; i++) sum += dataArray[i]` is rendered as a sum
over `List.range`; under the conditions of the theorems below every accessed
index is in bounds, so `getD _ 0` agrees with the JS array access. -/
def getAverageAmplitude (sampleRate : ℚ) (dataArray : List ℕ) (minFreq maxFreq : ℚ) : ℚ :=
  let bufferLength := dataArray.length
  let minBin := frequencyToBin sampleRate bufferLength minFreq
  let maxBin := min (frequencyToBin sampleRate bufferLength maxFreq) ((bufferLength : ℤ) - 1)
  if maxBin ≤ minBin then 0
  else
    let binCount := (maxBin - minBin + 1).toNat
    let sum : ℚ := ((List.range binCount).map
        (fun (k : ℕ) => ((dataArray.getD (minBin + (k : ℤ)).toNat 0 : ℕ) : ℚ))).sum
    let count : ℚ := (binCount : ℚ)
    if 0 < count then sum / count / 255 else 0

/-- The per-band amplitude as the specification words it: the mean of the
byte energies of the bins whose index lies in the half-open range
`[minBin, maxBin)`, divided by 255, and 0 when `minBin ≥ maxBin`. -/
def bandAmplitudeHalfOpen (sampleRate : ℚ) (dataArray : List ℕ) (minFreq maxFreq : ℚ) : ℚ :=
  let bufferLength := dataArray.length
  let minBin := frequencyToBin sampleRate bufferLength minFreq
  let maxBin := frequencyToBin sampleRate bufferLength maxFreq
  if maxBin ≤ minBin then 0
  else
    (∑ i in Finset.Ico minBin maxBin, ((dataArray.getD i.toNat 0 : ℕ) : ℚ)) /
      ((Finset.Ico minBin maxBin).card : ℚ) / 255

/-- The per-band amplitude over the closed bin range
`[minBin, min (maxBin, bufferLength - 1)]`: the mean of the byte energies of
those bins divided by 255, and 0 when the clamped `maxBin` is at most
`minBin`. -/
def bandAmplitudeClosedRange (sampleRate : ℚ) (dataArray : List ℕ) (minFreq maxFreq : ℚ) : ℚ :=
  let bufferLength := dataArray.length
  let minBin := frequencyToBin sampleRate bufferLength minFreq
  let maxBin := min (frequencyToBin sampleRate bufferLength maxFreq) ((bufferLength : ℤ) - 1)
  if maxBin ≤ minBin then 0
  else
    (∑ i in Finset.Icc minBin maxBin, ((dataArray.getD i.toNat 0 : ℕ) : ℚ)) /
      ((Finset.Icc minBin maxBin).card : ℚ) / 255

/- ## Missing-audio fallback (visualizer `render`, analyzer `analyze`) -/

/-- The five raw per-range amplitudes produced by the audio analyzer. -/
structure RawAmplitudes where
  bass : ℚ
  lowerMid : ℚ
  mid : ℚ
  upperMid : ℚ
  treble : ℚ
deriving DecidableEq

/-- The all-zero amplitude record `render` starts from. -/
def zeroAmplitudes : RawAmplitudes := ⟨0, 0, 0, 0, 0⟩

/-- `analyze` from the audio analyzer: when the analyser node or the data
array is missing (the analyzer was never initialized) it returns without a
value, otherwise it returns the current amplitude record. -/
def analyze (initialized : Bool) (current : RawAmplitudes) : Option RawAmplitudes :=
  if initialized then some current else none

/-- The raw amplitudes used by `render`: zeros when no analyzer is connected
(`none`), and `analyzer.analyze() || zeros` when one is
(`some (analyze result)`). -/
def renderRawAmplitudes (analyzer : Option (Option RawAmplitudes)) : RawAmplitudes :=
  match analyzer with
  | none => zeroAmplitudes
  | some none => zeroAmplitudes
  | some (some amps) => amps

/-- The emphasis pass of `render`: low emphasis on bass and lower mid, mid
emphasis on mid, high emphasis on upper mid and treble. -/
def emphasizedAmplitudes (lowEmphasis midEmphasis highEmphasis : ℚ)
    (raw : RawAmplitudes) : RawAmplitudes :=
  ⟨applyEmphasis raw.bass lowEmphasis,
   applyEmphasis raw.lowerMid lowEmphasis,
   applyEmphasis raw.mid midEmphasis,
   applyEmphasis raw.upperMid highEmphasis,
   applyEmphasis raw.treble highEmphasis⟩

/-- The three emphasis bands driving the visuals. -/
structure BandTargets where
  low : ℚ
  mid : ℚ
  high : ℚ
deriving DecidableEq

/-- The band combination step of `smoothAmplitudes`: low is the max of bass
and lower mid, high is the max of upper mid and treble. -/
def bandTargets (amps : RawAmplitudes) : BandTargets :=
  ⟨max amps.bass amps.lowerMid, amps.mid, max amps.upperMid amps.treble⟩

/- ## Color model (visualizer `rgbToHsl`, `hslToRgb`, `boostColorForLightBg`) -/

/-- An RGB color as the visualizer handles it after `hexToRgb` (channel
values 0-255; kept in `ℚ` because the conversions divide by 255). -/
structure Rgb where
  r : ℚ
  g : ℚ
  b : ℚ
deriving DecidableEq

/-- An HSL color: hue 0-360, saturation and lightness 0-100. -/
structure Hsl where
  h : ℚ
  s : ℚ
  l : ℚ
deriving DecidableEq

/-- JS `Math.round`: round half toward positive infinity. -/
def jsRound (x : ℚ) : ℤ := ⌊x + 1 / 2⌋

/-- `rgbToHsl` from the visualizer (the `switch (max)` falls to the first
matching case, so equality with `r` is tested first). -/
def rgbToHsl (r0 g0 b0 : ℚ) : Hsl :=
  let r := r0 / 255
  let g := g0 / 255
  let b := b0 / 255
  let mx := max r (max g b)
  let mn := min r (min g b)
  let l := (mx + mn) / 2
  if mx = mn then ⟨0, 0, l * 100⟩
  else
    let d := mx - mn
    let s := if l > 1 / 2 then d / (2 - mx - mn) else d / (mx + mn)
    let h :=
      if mx = r then ((g - b) / d + (if g < b then 6 else 0)) / 6
      else if mx = g then ((b - r) / d + 2) / 6
      else ((r - g) / d + 4) / 6
    ⟨h * 360, s * 100, l * 100⟩

/-- The `hue2rgb` helper of `hslToRgb`. -/
def hue2rgb (p q t0 : ℚ) : ℚ :=
  let t1 := if t0 < 0 then t0 + 1 else t0
  let t := if t1 > 1 then t1 - 1 else t1
  if t < 1 / 6 then p + (q - p) * 6 * t
  else if t < 1 / 2 then q
  else if t < 2 / 3 then p + (q - p) * (2 / 3 - t) * 6
  else p

/-- `hslToRgb` from the visualizer. -/
def hslToRgb (h0 s0 l0 : ℚ) : Rgb :=
  let h := h0 / 360
  let s := s0 / 100
  let l := l0 / 100
  if s = 0 then
    let v := (jsRound (l * 255) : ℚ)
    ⟨v, v, v⟩
  else
    let q := if l < 1 / 2 then l * (1 + s) else l + s - l * s
    let p := 2 * l - q
    ⟨(jsRound (hue2rgb p q (h + 1 / 3) * 255) : ℚ),
     (jsRound (hue2rgb p q h * 255) : ℚ),
     (jsRound (hue2rgb p q (h - 1 / 3) * 255) : ℚ)⟩

/-- `boostColorForLightBg` from the visualizer, on an already-parsed RGB
color: saturation multiplied and capped at 100; lightness replaced by
`min 60 (l * 0.7)` when darkening. -/
def boostColorForLightBg (c : Rgb) (saturationMultiplier : ℚ) (darken : Bool) : Rgb :=
  let hsl := rgbToHsl c.r c.g c.b
  let s := min 100 (hsl.s * saturationMultiplier)
  let l := if darken then min 60 (hsl.l * 0.7) else hsl.l
  hslToRgb hsl.h s l

/-- `getBackgroundLightness` from the visualizer: the HSL lightness of the
background color. -/
def getBackgroundLightness (bg : Rgb) : ℚ :=
  (rgbToHsl bg.r bg.g bg.b).l

/-- The light-background test of `render`: `bgLightness > 50`. -/
def renderIsLightBg (bg : Rgb) : Bool :=
  decide (50 < getBackgroundLightness bg)

/-- The color `drawGradientCircle` actually draws, as dispatched by
`render`: boosted (saturation 3x, darkened) in light-background mode, the
input color unchanged otherwise. -/
def drawnRgb (bg c : Rgb) : Rgb :=
  if renderIsLightBg bg then boostColorForLightBg c 3 true else c

/-- The center-stop opacity `drawGradientCircle` uses: forced up to full
(`max opacity 1.0`) in light-background mode, unchanged otherwise. -/
def drawnCenterOpacity (bg : Rgb) (opacity : ℚ) : ℚ :=
  if renderIsLightBg bg then max opacity 1 else opacity

/- ## Temporal Smoother (visualizer `smoothAmplitudes`, `render` delta time) -/

/-- `attackSpeed` in `smoothAmplitudes`: `1 - attack / 100 * 0.95`. -/
def attackSpeed (attack : ℚ) : ℚ := 1 - attack / 100 * 0.95

/-- `decaySpeed` in `smoothAmplitudes`: `1 - decay / 100 * 0.98`. -/
def decaySpeed (decay : ℚ) : ℚ := 1 - decay / 100 * 0.98

/-- `effectiveSpeed` in `smoothAmplitudes`: the selected base speed slowed
multiplicatively by inertia. -/
def effectiveSpeed (baseSpeed inertia : ℚ) : ℚ :=
  baseSpeed * (1 - inertia / 100 * 0.9)

open Classical in
/-- The base speed selected per band in `smoothAmplitudes`: the attack speed
when the target is above the current value, the decay speed otherwise. -/
noncomputable def bandBaseSpeed (attack decay : ℚ) (current target : ℝ) : ℚ :=
  if target > current then attackSpeed attack else decaySpeed decay

/-- The exponential smoothing factor of `smoothAmplitudes`:
`1 - Math.exp(-effectiveSpeed * deltaTime * 60)`. -/
noncomputable def smoothingFactor (effSpeed : ℚ) (deltaTime : ℝ) : ℝ :=
  1 - Real.exp (-(effSpeed : ℝ) * deltaTime * 60)

/-- One per-band update of `smoothAmplitudes`:
`current + (target - current) * smoothingFactor`. -/
noncomputable def smoothStep (attack decay inertia : ℚ) (deltaTime current target : ℝ) : ℝ :=
  current +
    (target - current) *
      smoothingFactor (effectiveSpeed (bandBaseSpeed attack decay current target) inertia)
        deltaTime

/-- The delta time computed at the top of `render`:
`Math.min((now - lastFrameTime) / 1000, 0.1)`. -/
noncomputable def renderDeltaTime (elapsedMs : ℝ) : ℝ :=
  min (elapsedMs / 1000) 0.1

/- ## Drift Engine (visualizer `updateDriftOffsets`) -/

/-- A 2D vector of JS numbers. -/
structure Vec2 where
  x : ℝ
  y : ℝ

/-- Per-band drift state: offset from the anchor and velocity. -/
structure BandDrift where
  offset : Vec2
  velocity : Vec2

/-- The cosine of `Math.atan2 y x`: `x` over the vector norm for a nonzero
vector, and 1 for the zero vector (JS `atan2(0, 0) = 0`). -/
noncomputable def cosAtan2 (y x : ℝ) : ℝ :=
  if x = 0 ∧ y = 0 then 1 else x / Real.sqrt (x ^ 2 + y ^ 2)

/-- The sine of `Math.atan2 y x`: `y` over the vector norm for a nonzero
vector, and 0 for the zero vector. -/
noncomputable def sinAtan2 (y x : ℝ) : ℝ :=
  if x = 0 ∧ y = 0 then 0 else y / Real.sqrt (x ^ 2 + y ^ 2)

open Classical in
/-- The drift-zero damping of `updateDriftOffsets` on one offset component:
the component is multiplied by 0.85, then snapped to exactly 0 when its
absolute value is below 1. -/
noncomputable def snapComponent (x : ℝ) : ℝ :=
  if |x| < 1 then 0 else x

/-- One frame of the drift-zero branch on one offset component: multiply by
0.85, then snap. -/
noncomputable def decayComponent (x : ℝ) : ℝ := snapComponent (x * 0.85)

/-- `maxDriftRadius` in `updateDriftOffsets`: `900 * driftAmount`. -/
noncomputable def maxDriftRadius (drift : ℝ) : ℝ := 900 * (drift / 100)

/-- `effectiveRadius` in `updateDriftOffsets`: the maximum drift radius
shrunk by anchor stability. -/
noncomputable def effectiveRadius (drift anchor : ℝ) : ℝ :=
  maxDriftRadius drift * (1 - anchor / 100 * 0.6)

open Classical in
/-- One per-band frame of `updateDriftOffsets`.  `rx` and `ry` stand for the
two `Math.random()` draws of the frame.  When the drift parameter is 0 the
offset decays and snaps and everything else is skipped; otherwise the
velocity receives a random impulse, friction, and a speed clamp, the offset
integrates the velocity, the soft boundary pushes the velocity inward, and
the hard boundary rescales the offset onto the allowed radius and reflects
the outward velocity component. -/
noncomputable def driftStep (drift anchor deltaTime rx ry : ℝ) (st : BandDrift) : BandDrift :=
  let driftAmount := drift / 100
  let anchorStability := anchor / 100
  if driftAmount = 0 then
    ⟨⟨snapComponent (st.offset.x * 0.85), snapComponent (st.offset.y * 0.85)⟩, st.velocity⟩
  else
    let effRadius := maxDriftRadius drift * (1 - anchorStability * 0.6)
    let baseSpeed := 200 * driftAmount
    let randomStrength := 800 * driftAmount * deltaTime
    let v1x := st.velocity.x + (rx - 0.5) * randomStrength
    let v1y := st.velocity.y + (ry - 0.5) * randomStrength
    let v2x := v1x * 0.97
    let v2y := v1y * 0.97
    let speed := Real.sqrt (v2x ^ 2 + v2y ^ 2)
    let v3x := if speed > baseSpeed then v2x / speed * baseSpeed else v2x
    let v3y := if speed > baseSpeed then v2y / speed * baseSpeed else v2y
    let ox := st.offset.x + v3x * deltaTime
    let oy := st.offset.y + v3y * deltaTime
    let distFromCenter := Real.sqrt (ox ^ 2 + oy ^ 2)
    let overshoot := (distFromCenter - effRadius * 0.7) / (effRadius * 0.3)
    let pushStrength := min (overshoot * 2) 1 * 300 * deltaTime
    let v4x := if distFromCenter > effRadius * 0.7 then v3x - cosAtan2 oy ox * pushStrength else v3x
    let v4y := if distFromCenter > effRadius * 0.7 then v3y - sinAtan2 oy ox * pushStrength else v3y
    let scale := effRadius / distFromCenter
    let o2x := if distFromCenter > effRadius then ox * scale else ox
    let o2y := if distFromCenter > effRadius then oy * scale else oy
    let nx := cosAtan2 o2y o2x
    let ny := sinAtan2 o2y o2x
    let dot := v4x * nx + v4y * ny
    let v5x := if distFromCenter > effRadius ∧ dot > 0 then v4x - nx * dot * 1.5 else v4x
    let v5y := if distFromCenter > effRadius ∧ dot > 0 then v4y - ny * dot * 1.5 else v4y
    ⟨⟨o2x, o2y⟩, ⟨v5x, v5y⟩⟩

/- ## Helper lemmas -/

theorem sum_list_range_map (f : ℕ → ℚ) (n : ℕ) :
    ((List.range n).map f).sum = ∑ k in Finset.range n, f k := by
  induction n with
  | zero => simp
  | succ n ih =>
      rw [List.range_succ, List.map_append, List.sum_append, Finset.sum_range_succ, ih]
      simp

/- ## Claim theorems -/

/-- C1, counterexample: the claim's anchor mapping sends `fieldScale = 50`
to a multiplier of exactly 1, but the multiplier `render` computes at
`fieldScale = 50` is 1.15. -/
theorem fieldScale_midpoint_counterexample :
    fieldScaleMultiplier 50 = 1.15 ∧ (1.15 : ℚ) ≠ 1 := by
  constructor
  · norm_num [fieldScaleMultiplier]
  · norm_num

/-- C1 (amended): the field-scale radius multiplier applied to `minRadius`
and `maxRadius` is the single affine map `0.3 + fieldScale / 100 * 1.7`,
sending `fieldScale = 0` to 0.3 and `fieldScale = 100` to 2 and hence
`fieldScale = 50` to 1.15 (not 1). -/
theorem fieldScale_multiplier_amended (fieldScale minR maxR : ℚ) :
    fieldScaleMultiplier fieldScale = 0.3 + fieldScale / 100 * 1.7 ∧
    fieldScaleMultiplier 0 = 0.3 ∧
    fieldScaleMultiplier 100 = 2 ∧
    fieldScaleMultiplier 50 = 1.15 ∧
    effectiveMinRadius minR fieldScale = minR * fieldScaleMultiplier fieldScale ∧
    effectiveMaxRadius maxR false fieldScale = maxR * fieldScaleMultiplier fieldScale ∧
    effectiveMaxRadius maxR true fieldScale = maxR * 1.5 * fieldScaleMultiplier fieldScale := by
  refine ⟨rfl, by norm_num [fieldScaleMultiplier], by norm_num [fieldScaleMultiplier],
    by norm_num [fieldScaleMultiplier], rfl, ?_, ?_⟩
  · simp [effectiveMaxRadius]
  · simp [effectiveMaxRadius]

/-- C2, counterexample: with sample rate 8, data `[255, 0, 255, 0]` and the
band `[0 Hz, 2 Hz]` (bin width 1, `minBin = 0`, `maxBin = 2`), the code
averages the three bins 0, 1 and 2 inclusively and returns 2/3, while the
claim's half-open range `[0, 2)` would give 1/2. -/
theorem spectrum_halfOpen_counterexample :
    getAverageAmplitude 8 [255, 0, 255, 0] 0 2 = 2 / 3 ∧
    bandAmplitudeHalfOpen 8 [255, 0, 255, 0] 0 2 = 1 / 2 ∧
    getAverageAmplitude 8 [255, 0, 255, 0] 0 2 ≠
      bandAmplitudeHalfOpen 8 [255, 0, 255, 0] 0 2 := by
  have h0 : frequencyToBin 8 4 0 = 0 := by norm_num [frequencyToBin]
  have h2 : frequencyToBin 8 4 2 = 2 := by norm_num [frequencyToBin]
  have e1 : getAverageAmplitude 8 [255, 0, 255, 0] 0 2 = 2 / 3 := by
    simp only [getAverageAmplitude, List.length_cons, List.length_nil]
    norm_num [h0, h2]
    simp [List.range_succ]
    norm_num
  have e2 : bandAmplitudeHalfOpen 8 [255, 0, 255, 0] 0 2 = 1 / 2 := by
    simp only [bandAmplitudeHalfOpen, List.length_cons, List.length_nil]
    norm_num [h0, h2]
    rw [show Finset.Ico (0 : ℤ) 2 = {0, 1} from by decide]
    rw [Finset.sum_pair (by norm_num)]
    simp [Int.toNat_ofNat]
    norm_num
  exact ⟨e1, e2, by rw [e1, e2]; norm_num⟩

/-- C2 (amended): for every band the Spectrum Sampler returns the mean of
the byte energies of the bins in the closed range
`[minBin, min (maxBin, bufferLength - 1)]`, divided by 255, and exactly 0
whenever that clamped `maxBin` is at most `minBin`. -/
theorem getAverageAmplitude_closedRange (sampleRate : ℚ) (dataArray : List ℕ)
    (minFreq maxFreq : ℚ) :
    getAverageAmplitude sampleRate dataArray minFreq maxFreq =
      bandAmplitudeClosedRange sampleRate dataArray minFreq maxFreq := by
  simp only [getAverageAmplitude, bandAmplitudeClosedRange]
  set a := frequencyToBin sampleRate dataArray.length minFreq with ha
  set b := min (frequencyToBin sampleRate dataArray.length maxFreq)
      ((dataArray.length : ℤ) - 1) with hb
  by_cases h : b ≤ a
  · simp [h]
  · push_neg at h
    rw [if_neg (not_le.mpr h), if_neg (not_le.mpr h)]
    have hposn : 0 < (b - a + 1).toNat := by omega
    have hpos : (0 : ℚ) < ((b - a + 1).toNat : ℚ) := by exact_mod_cast hposn
    rw [if_pos hpos]
    have hsum : ((List.range (b - a + 1).toNat).map
          (fun (k : ℕ) => ((dataArray.getD (a + (k : ℤ)).toNat 0 : ℕ) : ℚ))).sum =
        ∑ i in Finset.Icc a b, ((dataArray.getD i.toNat 0 : ℕ) : ℚ) := by
      rw [sum_list_range_map, Int.Icc_eq_finset_map, Finset.sum_map]
      simp only [Function.Embedding.trans_apply, Nat.castEmbedding_apply,
        addLeftEmbedding_apply]
      have hN : (b - a + 1).toNat = (b + 1 - a).toNat := by omega
      rw [hN]
    have hcardn : (Finset.Icc a b).card = (b - a + 1).toNat := by
      rw [Int.card_Icc]; omega
    have hcard : ((Finset.Icc a b).card : ℚ) = ((b - a + 1).toNat : ℚ) := by
      exact_mod_cast hcardn
    rw [hsum, hcard]

/-- C5: `applyCompression` is the soft-knee lerp
`a + (0.5 - a) * (c / 100) * 0.8`; compression 0 is the identity,
compression 100 leaves exactly 20 percent of the original distance to 0.5,
and the distance to 0.5 is monotonically non-increasing in the compression
amount. -/
theorem applyCompression_spec (a c c' : ℚ) (ha0 : 0 ≤ a) (ha1 : a ≤ 1)
    (hc0 : 0 ≤ c) (hcc : c ≤ c') (hc1 : c' ≤ 100) :
    applyCompression a c = a + (0.5 - a) * (c / 100) * 0.8 ∧
    applyCompression a 0 = a ∧
    |applyCompression a 100 - 0.5| = (1 - 0.8) * |a - 0.5| ∧
    |applyCompression a c' - 0.5| ≤ |applyCompression a c - 0.5| := by
  have key : ∀ x : ℚ, applyCompression a x - 0.5 = (a - 0.5) * (1 - x / 125) := by
    intro x
    simp only [applyCompression]
    ring
  refine ⟨rfl, by simp [applyCompression], ?_, ?_⟩
  · have h100 : applyCompression a 100 - 0.5 = (a - 0.5) * (1 / 5) := by
      rw [key]; norm_num
    rw [h100, abs_mul]
    rw [show |(1 : ℚ) / 5| = 1 / 5 from by norm_num]
    ring
  · have hc100 : c ≤ 100 := le_trans hcc hc1
    have e1 : |applyCompression a c' - 0.5| = |a - 0.5| * (1 - c' / 125) := by
      rw [key c', abs_mul, abs_of_nonneg (by linarith : (0 : ℚ) ≤ 1 - c' / 125)]
    have e2 : |applyCompression a c - 0.5| = |a - 0.5| * (1 - c / 125) := by
      rw [key c, abs_mul, abs_of_nonneg (by linarith : (0 : ℚ) ≤ 1 - c / 125)]
    rw [e1, e2]
    have hmono : 1 - c' / 125 ≤ 1 - c / 125 := by linarith
    exact mul_le_mul_of_nonneg_left hmono (abs_nonneg _)

/-- C5, witness at `a = 1/4`, `c = 30`, `c' = 60`. -/
theorem applyCompression_spec_witness :
    ((0 : ℚ) ≤ 1 / 4 ∧ (1 / 4 : ℚ) ≤ 1 ∧ (0 : ℚ) ≤ 30 ∧ (30 : ℚ) ≤ 60 ∧ (60 : ℚ) ≤ 100) ∧
    (applyCompression (1 / 4) 30 = 1 / 4 + (0.5 - 1 / 4) * (30 / 100) * 0.8 ∧
     applyCompression (1 / 4) 0 = 1 / 4 ∧
     |applyCompression (1 / 4) 100 - 0.5| = (1 - 0.8) * |(1 / 4 : ℚ) - 0.5| ∧
     |applyCompression (1 / 4) 60 - 0.5| ≤ |applyCompression (1 / 4) 30 - 0.5|) :=
  ⟨by norm_num,
   applyCompression_spec (1 / 4) 30 60 (by norm_num) (by norm_num) (by norm_num)
     (by norm_num) (by norm_num)⟩

/-- C6: `applyEmphasis` clamps `a * (e / 50)` into `[0, 1]`, stays in
`[0, 1]`, is monotone in the emphasis, is the identity at emphasis 50, mutes
at 0 and doubles (capped at 1) at 100. -/
theorem applyEmphasis_spec (a e e' : ℚ) (ha0 : 0 ≤ a) (ha1 : a ≤ 1)
    (he0 : 0 ≤ e) (hee : e ≤ e') (he1 : e' ≤ 100) :
    applyEmphasis a e = max 0 (min 1 (a * (e / 50))) ∧
    0 ≤ applyEmphasis a e ∧ applyEmphasis a e ≤ 1 ∧
    applyEmphasis a e ≤ applyEmphasis a e' ∧
    applyEmphasis a 50 = a ∧
    applyEmphasis a 0 = 0 ∧
    applyEmphasis a 100 = min 1 (2 * a) := by
  have hprod : (0 : ℚ) ≤ a * (e / 50) := by positivity
  refine ⟨?_, ?_, ?_, ?_, ?_, ?_, ?_⟩
  · simp only [applyEmphasis]
    rw [max_eq_right]
    exact le_min (by norm_num) hprod
  · simp only [applyEmphasis]
    exact le_min (by norm_num) hprod
  · simp only [applyEmphasis]
    exact min_le_left _ _
  · simp only [applyEmphasis]
    refine min_le_min le_rfl ?_
    have : e / 50 ≤ e' / 50 := by linarith
    exact mul_le_mul_of_nonneg_left this ha0
  · simp only [applyEmphasis]
    rw [show (50 : ℚ) / 50 = 1 from by norm_num, mul_one]
    exact min_eq_right ha1
  · simp only [applyEmphasis]
    norm_num
  · simp only [applyEmphasis]
    rw [show (100 : ℚ) / 50 = 2 from by norm_num, mul_comm]

/-- C6, witness at `a = 2/5`, `e = 20`, `e' = 80`. -/
theorem applyEmphasis_spec_witness :
    ((0 : ℚ) ≤ 2 / 5 ∧ (2 / 5 : ℚ) ≤ 1 ∧ (0 : ℚ) ≤ 20 ∧ (20 : ℚ) ≤ 80 ∧ (80 : ℚ) ≤ 100) ∧
    (applyEmphasis (2 / 5) 20 = max 0 (min 1 (2 / 5 * (20 / 50))) ∧
     0 ≤ applyEmphasis (2 / 5) 20 ∧ applyEmphasis (2 / 5) 20 ≤ 1 ∧
     applyEmphasis (2 / 5) 20 ≤ applyEmphasis (2 / 5) 80 ∧
     applyEmphasis (2 / 5) 50 = 2 / 5 ∧
     applyEmphasis (2 / 5) 0 = 0 ∧
     applyEmphasis (2 / 5) 100 = min 1 (2 * (2 / 5))) :=
  ⟨by norm_num,
   applyEmphasis_spec (2 / 5) 20 80 (by norm_num) (by norm_num) (by norm_num)
     (by norm_num) (by norm_num)⟩

/-- C9: with no analyzer connected, or an analyzer whose `analyze` yields no
amplitude map, `render` proceeds from the all-zero amplitude record, and the
zero record stays zero through the emphasis pass and the band combination,
so the frame completes with every band silent. -/
theorem render_missing_audio_silent (lowE midE highE : ℚ) (amps : RawAmplitudes) :
    renderRawAmplitudes none = zeroAmplitudes ∧
    renderRawAmplitudes (some none) = zeroAmplitudes ∧
    analyze false amps = none ∧
    renderRawAmplitudes (some (analyze false amps)) = zeroAmplitudes ∧
    emphasizedAmplitudes lowE midE highE zeroAmplitudes = zeroAmplitudes ∧
    bandTargets zeroAmplitudes = ⟨0, 0, 0⟩ := by
  refine ⟨rfl, rfl, rfl, rfl, ?_, ?_⟩
  · simp [emphasizedAmplitudes, applyEmphasis, zeroAmplitudes]
  · simp [bandTargets, zeroAmplitudes]

/-- C7: `render` classifies the background as light exactly when its HSL
lightness exceeds 50; in light mode the drawn band color has its saturation
tripled (capped at 100) and its lightness replaced by `min 60 (l * 0.7)` and
the center opacity is forced to full, while for background lightness at most
50 the drawn color and opacity are the unmodified inputs. -/
theorem background_adaptive_color (bg c : Rgb) (op : ℚ) (hop : op ≤ 1) :
    (renderIsLightBg bg = true ↔ 50 < getBackgroundLightness bg) ∧
    (50 < (rgbToHsl bg.r bg.g bg.b).l →
      drawnRgb bg c =
        hslToRgb (rgbToHsl c.r c.g c.b).h
          (min 100 ((rgbToHsl c.r c.g c.b).s * 3))
          (min 60 ((rgbToHsl c.r c.g c.b).l * 0.7)) ∧
      drawnCenterOpacity bg op = 1) ∧
    ((rgbToHsl bg.r bg.g bg.b).l ≤ 50 →
      drawnRgb bg c = c ∧ drawnCenterOpacity bg op = op) := by
  refine ⟨by simp [renderIsLightBg], ?_, ?_⟩
  · intro h
    have hlight : renderIsLightBg bg = true := by
      simpa [renderIsLightBg, getBackgroundLightness] using h
    refine ⟨?_, ?_⟩
    · simp [drawnRgb, hlight, boostColorForLightBg]
    · simp only [drawnCenterOpacity, hlight, if_true]
      exact max_eq_right hop
  · intro h
    have hdark : renderIsLightBg bg = false := by
      simpa [renderIsLightBg, getBackgroundLightness] using not_lt.mpr h
    exact ⟨by simp [drawnRgb, hdark], by simp [drawnCenterOpacity, hdark]⟩

/-- C7, witness at background `#f5f5f5` (245, 245, 245), band color
`#e94560` (233, 69, 96), opacity 1/2. -/
theorem background_adaptive_color_witness :
    ((1 / 2 : ℚ) ≤ 1) ∧
    ((renderIsLightBg ⟨245, 245, 245⟩ = true ↔
        50 < getBackgroundLightness ⟨245, 245, 245⟩) ∧
     (50 < (rgbToHsl (245 : ℚ) 245 245).l →
       drawnRgb ⟨245, 245, 245⟩ ⟨233, 69, 96⟩ =
         hslToRgb (rgbToHsl (233 : ℚ) 69 96).h
           (min 100 ((rgbToHsl (233 : ℚ) 69 96).s * 3))
           (min 60 ((rgbToHsl (233 : ℚ) 69 96).l * 0.7)) ∧
       drawnCenterOpacity ⟨245, 245, 245⟩ (1 / 2) = 1) ∧
     ((rgbToHsl (245 : ℚ) 245 245).l ≤ 50 →
       drawnRgb ⟨245, 245, 245⟩ ⟨233, 69, 96⟩ = ⟨233, 69, 96⟩ ∧
       drawnCenterOpacity ⟨245, 245, 245⟩ (1 / 2) = 1 / 2)) :=
  ⟨by norm_num, background_adaptive_color ⟨245, 245, 245⟩ ⟨233, 69, 96⟩ (1 / 2) (by norm_num)⟩

open Classical in
/-- C4: the Temporal Smoother updates
`current + (target - current) * (1 - exp(-effectiveRate * dt * 60))` with
`effectiveRate = baseRate * (1 - inertia / 100 * 0.9)`, where `baseRate` is
`1 - attack / 100 * 0.95` when the target exceeds the current value and
`1 - decay / 100 * 0.98` otherwise, and the delta time `render` feeds it is
clamped to at most 0.1 seconds. -/
theorem smoothAmplitudes_update_formula (attack decay inertia : ℚ)
    (elapsedMs current target : ℝ) :
    renderDeltaTime elapsedMs = min (elapsedMs / 1000) 0.1 ∧
    renderDeltaTime elapsedMs ≤ 0.1 ∧
    smoothStep attack decay inertia (renderDeltaTime elapsedMs) current target =
      current + (target - current) *
        (1 - Real.exp
          (-((if target > current then 1 - (attack : ℝ) / 100 * 0.95
              else 1 - (decay : ℝ) / 100 * 0.98) *
             (1 - (inertia : ℝ) / 100 * 0.9)) *
            renderDeltaTime elapsedMs * 60)) := by
  refine ⟨rfl, min_le_right _ _, ?_⟩
  simp only [smoothStep, smoothingFactor, effectiveSpeed, bandBaseSpeed, attackSpeed,
    decaySpeed]
  split_ifs with h
  · congr 2
    push_cast
    ring
  · congr 2
    push_cast
    ring

/-- C10: the per-band effective speed is at least `0.02 * 0.1 = 1/500`, so
the smoothing factor lies in `[0, 1)` for any nonnegative delta time; hence
each smoothing step lands between the previous value and the target
(inclusive), and amplitudes in `[0, 1]` stay in `[0, 1]`. -/
theorem smoothing_no_overshoot (attack decay inertia : ℚ) (dt current target : ℝ)
    (hA0 : 0 ≤ attack) (hA1 : attack ≤ 100) (hD0 : 0 ≤ decay) (hD1 : decay ≤ 100)
    (hI0 : 0 ≤ inertia) (hI1 : inertia ≤ 100) (hdt : 0 ≤ dt) :
    (1 / 500 : ℚ) ≤ effectiveSpeed (bandBaseSpeed attack decay current target) inertia ∧
    0 ≤ smoothingFactor (effectiveSpeed (bandBaseSpeed attack decay current target) inertia) dt ∧
    smoothingFactor (effectiveSpeed (bandBaseSpeed attack decay current target) inertia) dt < 1 ∧
    min current target ≤ smoothStep attack decay inertia dt current target ∧
    smoothStep attack decay inertia dt current target ≤ max current target ∧
    (0 ≤ current → current ≤ 1 → 0 ≤ target → target ≤ 1 →
      0 ≤ smoothStep attack decay inertia dt current target ∧
      smoothStep attack decay inertia dt current target ≤ 1) := by
  have hElo : (1 / 500 : ℚ) ≤
      effectiveSpeed (bandBaseSpeed attack decay current target) inertia := by
    unfold effectiveSpeed bandBaseSpeed attackSpeed decaySpeed
    split_ifs
    · nlinarith
    · nlinarith
  set E := effectiveSpeed (bandBaseSpeed attack decay current target) inertia with hE
  have hEpos : (0 : ℝ) < (E : ℝ) := by
    have h1 : (0 : ℚ) < E := lt_of_lt_of_le (by norm_num) hElo
    exact_mod_cast h1
  have hf0 : 0 ≤ smoothingFactor E dt := by
    unfold smoothingFactor
    have harg : -(E : ℝ) * dt * 60 ≤ 0 := by nlinarith
    have hle := Real.exp_le_one_iff.mpr harg
    linarith
  have hf1 : smoothingFactor E dt < 1 := by
    unfold smoothingFactor
    have hpos := Real.exp_pos (-(E : ℝ) * dt * 60)
    linarith
  have hstep : smoothStep attack decay inertia dt current target =
      current + (target - current) * smoothingFactor E dt := rfl
  have hlow : min current target ≤ smoothStep attack decay inertia dt current target := by
    rw [hstep]
    rcases le_total current target with h | h
    · rw [min_eq_left h]
      nlinarith
    · rw [min_eq_right h]
      nlinarith
  have hhigh : smoothStep attack decay inertia dt current target ≤ max current target := by
    rw [hstep]
    rcases le_total current target with h | h
    · rw [max_eq_right h]
      nlinarith
    · rw [max_eq_left h]
      nlinarith
  refine ⟨hElo, hf0, hf1, hlow, hhigh, ?_⟩
  intro hc0 hc1 ht0 ht1
  constructor
  · exact le_trans (le_min hc0 ht0) hlow
  · exact le_trans hhigh (max_le hc1 ht1)

/-- C10, witness at attack = decay = inertia = 0, `dt = 0`, current 0,
target 1. -/
theorem smoothing_no_overshoot_witness :
    ((0 : ℚ) ≤ 0 ∧ (0 : ℚ) ≤ 100 ∧ (0 : ℝ) ≤ 0) ∧
    ((1 / 500 : ℚ) ≤ effectiveSpeed (bandBaseSpeed 0 0 (0 : ℝ) 1) 0 ∧
     0 ≤ smoothingFactor (effectiveSpeed (bandBaseSpeed 0 0 (0 : ℝ) 1) 0) 0 ∧
     smoothingFactor (effectiveSpeed (bandBaseSpeed 0 0 (0 : ℝ) 1) 0) 0 < 1 ∧
     min (0 : ℝ) 1 ≤ smoothStep 0 0 0 0 0 1 ∧
     smoothStep 0 0 0 0 0 1 ≤ max (0 : ℝ) 1 ∧
     ((0 : ℝ) ≤ 0 → (0 : ℝ) ≤ 1 → (0 : ℝ) ≤ 1 → (1 : ℝ) ≤ 1 →
       0 ≤ smoothStep 0 0 0 0 0 1 ∧ smoothStep 0 0 0 0 0 1 ≤ 1)) :=
  ⟨⟨le_refl 0, by norm_num, le_refl 0⟩,
   smoothing_no_overshoot 0 0 0 0 0 1 (le_refl 0) (by norm_num) (le_refl 0) (by norm_num)
     (le_refl 0) (by norm_num) (le_refl 0)⟩

open Classical in
theorem hardClamp_mag_le (R ox oy : ℝ) (hR : 0 ≤ R) :
    Real.sqrt
      ((if Real.sqrt (ox ^ 2 + oy ^ 2) > R then ox * (R / Real.sqrt (ox ^ 2 + oy ^ 2)) else ox) ^ 2 +
       (if Real.sqrt (ox ^ 2 + oy ^ 2) > R then oy * (R / Real.sqrt (ox ^ 2 + oy ^ 2)) else oy) ^ 2)
      ≤ R := by
  set d := Real.sqrt (ox ^ 2 + oy ^ 2) with hd
  split_ifs with h
  · have hdpos : 0 < d := lt_of_le_of_lt hR h
    have hsq : (ox * (R / d)) ^ 2 + (oy * (R / d)) ^ 2 = (R / d) ^ 2 * (ox ^ 2 + oy ^ 2) := by
      ring
    rw [hsq, Real.sqrt_mul (sq_nonneg _), Real.sqrt_sq_eq_abs, ← hd,
      abs_of_nonneg (by positivity : (0 : ℝ) ≤ R / d), div_mul_cancel₀ _ (ne_of_gt hdpos)]
  · rw [← hd]
    exact not_lt.mp h

/-- C3: with drift > 0 and anchor in `[0, 100]`, after one frame of
`updateDriftOffsets` the magnitude of a band's drift offset never exceeds
`effectiveRadius = (900 * drift / 100) * (1 - (anchor / 100) * 0.6)`, for
every incoming state, delta time, and random draw: the hard-boundary step
rescales any offset beyond the radius back onto the boundary. -/
theorem driftStep_offset_bounded (drift anchor dt rx ry : ℝ) (st : BandDrift)
    (hd : 0 < drift) (ha0 : 0 ≤ anchor) (ha1 : anchor ≤ 100) :
    effectiveRadius drift anchor = 900 * (drift / 100) * (1 - anchor / 100 * 0.6) ∧
    Real.sqrt ((driftStep drift anchor dt rx ry st).offset.x ^ 2 +
        (driftStep drift anchor dt rx ry st).offset.y ^ 2) ≤
      effectiveRadius drift anchor := by
  have hRform : effectiveRadius drift anchor =
      900 * (drift / 100) * (1 - anchor / 100 * 0.6) := rfl
  have hR0 : 0 ≤ effectiveRadius drift anchor := by
    rw [hRform]
    nlinarith
  refine ⟨hRform, ?_⟩
  have hdz : ¬(drift / 100 = 0) := by
    intro h
    have : drift = 0 := by linarith [(div_eq_zero_iff.mp h)]
    linarith
  simp only [driftStep, maxDriftRadius, effectiveRadius]
  rw [if_neg hdz]
  exact hardClamp_mag_le _ _ _ (by nlinarith)

/-- C3, witness at drift 50, anchor 0, zero state, `dt = 0`, centered random
draws. -/
theorem driftStep_offset_bounded_witness :
    ((0 : ℝ) < 50 ∧ (0 : ℝ) ≤ 0 ∧ (0 : ℝ) ≤ 100) ∧
    (effectiveRadius 50 0 = 900 * ((50 : ℝ) / 100) * (1 - (0 : ℝ) / 100 * 0.6) ∧
     Real.sqrt ((driftStep 50 0 0 (1 / 2) (1 / 2) ⟨⟨0, 0⟩, ⟨0, 0⟩⟩).offset.x ^ 2 +
         (driftStep 50 0 0 (1 / 2) (1 / 2) ⟨⟨0, 0⟩, ⟨0, 0⟩⟩).offset.y ^ 2) ≤
       effectiveRadius 50 0) :=
  ⟨⟨by norm_num, le_refl 0, by norm_num⟩,
   driftStep_offset_bounded 50 0 0 (1 / 2) (1 / 2) ⟨⟨0, 0⟩, ⟨0, 0⟩⟩ (by norm_num)
     (le_refl 0) (by norm_num)⟩

theorem decayComponent_abs_le (x : ℝ) : |decayComponent x| ≤ 0.85 * |x| := by
  unfold decayComponent snapComponent
  split_ifs
  · rw [abs_zero]
    positivity
  · rw [abs_mul]
    rw [show |(0.85 : ℝ)| = 0.85 from by norm_num]
    rw [mul_comm]

theorem decayComponent_zero : decayComponent 0 = 0 := by
  unfold decayComponent snapComponent
  norm_num

theorem decayComponent_iter_abs_le (n : ℕ) (x : ℝ) :
    |decayComponent^[n] x| ≤ 0.85 ^ n * |x| := by
  induction n with
  | zero => simp
  | succ n ih =>
      rw [Function.iterate_succ_apply']
      calc |decayComponent (decayComponent^[n] x)| ≤ 0.85 * |decayComponent^[n] x| :=
            decayComponent_abs_le _
        _ ≤ 0.85 * (0.85 ^ n * |x|) := by nlinarith
        _ = 0.85 ^ (n + 1) * |x| := by ring

theorem decayComponent_eq_zero_of_small (y : ℝ) (hy : |y| < 1) : decayComponent y = 0 := by
  unfold decayComponent snapComponent
  rw [if_pos]
  rw [abs_mul, show |(0.85 : ℝ)| = 0.85 from by norm_num]
  nlinarith [abs_nonneg y]

theorem decayComponent_eventually_zero (x : ℝ) :
    ∃ N : ℕ, decayComponent^[N] x = 0 := by
  have hx1 : (0 : ℝ) < 1 / (|x| + 1) := by positivity
  obtain ⟨n, hn⟩ := exists_pow_lt_of_lt_one hx1 (by norm_num : (0.85 : ℝ) < 1)
  refine ⟨n + 1, ?_⟩
  have hsmall : |decayComponent^[n] x| < 1 := by
    have h1 := decayComponent_iter_abs_le n x
    have hpow : (0 : ℝ) < 0.85 ^ n := by positivity
    have habs : (0 : ℝ) ≤ |x| := abs_nonneg x
    have h2 : 0.85 ^ n * (|x| + 1) < 1 := by
      have hx2 : (0 : ℝ) < |x| + 1 := by positivity
      calc 0.85 ^ n * (|x| + 1) < 1 / (|x| + 1) * (|x| + 1) := by
            exact mul_lt_mul_of_pos_right hn hx2
        _ = 1 := by field_simp
    nlinarith
  rw [Function.iterate_succ_apply']
  exact decayComponent_eq_zero_of_small _ hsmall

theorem driftStep_zero_eq (anchor dt rx ry : ℝ) (st : BandDrift) :
    driftStep 0 anchor dt rx ry st =
      ⟨⟨decayComponent st.offset.x, decayComponent st.offset.y⟩, st.velocity⟩ := by
  simp only [driftStep, decayComponent]
  rw [if_pos (by norm_num : (0 : ℝ) / 100 = 0)]

theorem driftStep_zero_iter (anchor dt rx ry : ℝ) (st : BandDrift) (n : ℕ) :
    (driftStep 0 anchor dt rx ry)^[n] st =
      ⟨⟨decayComponent^[n] st.offset.x, decayComponent^[n] st.offset.y⟩, st.velocity⟩ := by
  induction n with
  | zero => rfl
  | succ n ih =>
      rw [Function.iterate_succ_apply', ih, driftStep_zero_eq,
        ← Function.iterate_succ_apply' decayComponent,
        ← Function.iterate_succ_apply' decayComponent]

/-- C8: with drift = 0 each frame multiplies both offset components by 0.85
and snaps any component below 1 in absolute value to exactly 0, leaving the
velocity untouched (the Brownian and boundary steps are skipped); the offset
magnitude never increases from one frame to the next, and after finitely
many frames the offset is exactly `(0, 0)` and stays there. -/
theorem driftZero_snapback (anchor dt rx ry : ℝ) (st : BandDrift) :
    driftStep 0 anchor dt rx ry st =
      ⟨⟨snapComponent (st.offset.x * 0.85), snapComponent (st.offset.y * 0.85)⟩,
        st.velocity⟩ ∧
    (∀ n : ℕ,
      Real.sqrt (((driftStep 0 anchor dt rx ry)^[n + 1] st).offset.x ^ 2 +
          ((driftStep 0 anchor dt rx ry)^[n + 1] st).offset.y ^ 2) ≤
        Real.sqrt (((driftStep 0 anchor dt rx ry)^[n] st).offset.x ^ 2 +
          ((driftStep 0 anchor dt rx ry)^[n] st).offset.y ^ 2)) ∧
    (∃ N : ℕ, ∀ n : ℕ,
      ((driftStep 0 anchor dt rx ry)^[N + n] st).offset.x = 0 ∧
      ((driftStep 0 anchor dt rx ry)^[N + n] st).offset.y = 0) := by
  refine ⟨driftStep_zero_eq anchor dt rx ry st, ?_, ?_⟩
  · intro n
    rw [driftStep_zero_iter, driftStep_zero_iter]
    apply Real.sqrt_le_sqrt
    have hx : (decayComponent^[n + 1] st.offset.x) ^ 2 ≤ (decayComponent^[n] st.offset.x) ^ 2 := by
      rw [Function.iterate_succ_apply']
      have h1 := decayComponent_abs_le (decayComponent^[n] st.offset.x)
      nlinarith [abs_nonneg (decayComponent^[n] st.offset.x),
        sq_abs (decayComponent^[n] st.offset.x),
        sq_abs (decayComponent (decayComponent^[n] st.offset.x)),
        abs_nonneg (decayComponent (decayComponent^[n] st.offset.x))]
    have hy : (decayComponent^[n + 1] st.offset.y) ^ 2 ≤ (decayComponent^[n] st.offset.y) ^ 2 := by
      rw [Function.iterate_succ_apply']
      have h1 := decayComponent_abs_le (decayComponent^[n] st.offset.y)
      nlinarith [abs_nonneg (decayComponent^[n] st.offset.y),
        sq_abs (decayComponent^[n] st.offset.y),
        sq_abs (decayComponent (decayComponent^[n] st.offset.y)),
        abs_nonneg (decayComponent (decayComponent^[n] st.offset.y))]
    exact add_le_add hx hy
  · obtain ⟨Nx, hNx⟩ := decayComponent_eventually_zero st.offset.x
    obtain ⟨Ny, hNy⟩ := decayComponent_eventually_zero st.offset.y
    refine ⟨Nx + Ny, ?_⟩
    intro n
    rw [driftStep_zero_iter]
    constructor
    · show decayComponent^[Nx + Ny + n] st.offset.x = 0
      rw [show Nx + Ny + n = (Ny + n) + Nx from by omega, Function.iterate_add_apply,
        hNx, Function.iterate_fixed decayComponent_zero]
    · show decayComponent^[Nx + Ny + n] st.offset.y = 0
      rw [show Nx + Ny + n = (Nx + n) + Ny from by omega, Function.iterate_add_apply,
        hNy, Function.iterate_fixed decayComponent_zero]
